import Mathlib

/-!
Shallow embedding of the HybridCloudSim discrete-event simulator
(HybridCloud/broker.py, devices.py, qdevices.py, qcloud.py,
job_records_manager.py, utility_functions/graph_manipulation.py),
together with theorems settling the specification claims about it.

Conventions: Python floats are embedded as exact rationals (ℚ), Python
ints as ℕ, dictionaries as association lists, and the SimPy containers
as explicit integer levels.  Each definition carries a doc comment
naming the Python function it translates.
-/

namespace HybridCloudSim

/-! ### Processing-time formula (qdevices.py, qcloud.py) -/

/-- Embeds `IBM_QuantumDevice.calculate_process_time` (qdevices.py lines
269-278): `M = 100`, `K = 10`, `S = job.num_shots`, `D = log2(self.qvol)`,
returning `M * K * S * D / self.clops / 60`.  The logarithm is taken as a
parameter `log2_qvol` (the Python code computes it with `math.log2`). -/
def IBM_calculate_process_time (num_shots : ℕ) (clops log2_qvol : ℚ) : ℚ :=
  let M : ℚ := 100
  let K : ℚ := 10
  let S : ℚ := num_shots
  let D : ℚ := log2_qvol
  M * K * S * D / clops / 60

/-- Embeds the base-class override `QuantumDevice.calculate_process_time`
(qdevices.py lines 183-188): `job.num_qubits * 100`. -/
def QuantumDevice_calculate_process_time (num_qubits : ℕ) : ℚ :=
  (num_qubits : ℚ) * 100

/-- Stated from the spec's words for comparison: duration
`M·K·shots·log2(quantum_volume)/clops/60`. -/
def spec_process_time (M K : ℚ) (num_shots : ℕ) (log2_qvol clops : ℚ) : ℚ :=
  M * K * (num_shots : ℚ) * log2_qvol / clops / 60

/-! ### Inter-device communication delay (qcloud.py) -/

/-- Embeds the total simulated delay of `QCloud.device_comm` (qcloud.py
lines 64-79): `comm_time = qubits_required * 0.02`, one
`timeout(comm_time)`, and a further `timeout(0.02)` only when the
`feedback` argument is true. -/
def device_comm_delay (qubits_required : ℕ) (feedback : Bool) : ℚ :=
  let comm_time : ℚ := (qubits_required : ℚ) * (2/100)
  comm_time + (if feedback then (2/100 : ℚ) else 0)

/-- Embeds the call sites in `QCloud.simple_allocate_large_job` (line 146)
and `QCloud.smart_allocate_large_job` (lines 232-236): for each adjacent
pair of allocated devices, `device_comm(job, d1, d2, qubits1 + qubits2)`
is invoked with the `feedback` parameter left at its default `False`. -/
def bulk_pair_comm_delay (qubits1 qubits2 : ℕ) : ℚ :=
  device_comm_delay (qubits1 + qubits2) false

/-- Stated from the claim's words for comparison: `0.02 × combined qubit
count` plus a fixed `0.02` classical-feedback delay. -/
def claim_pair_comm_delay (combined : ℕ) : ℚ :=
  (2/100 : ℚ) * (combined : ℚ) + 2/100

/-! ### Claim C8 -/

/-- C8: for every quantum job processed on a device with IBM throughput
constants, the computed processing duration equals
`M·K·shots·log2(quantum_volume)/clops/60` with `M = 100`, `K = 10`
(the embedded `IBM_QuantumDevice.calculate_process_time` agrees with the
spec's formula at those constants on all inputs). -/
theorem claim_C8_process_time (num_shots : ℕ) (clops log2_qvol : ℚ) :
    IBM_calculate_process_time num_shots clops log2_qvol
      = spec_process_time 100 10 num_shots log2_qvol clops := by
  unfold IBM_calculate_process_time spec_process_time
  ring

/-! ### Claim C3 -/

/-- C3 counterexample: in bulk multi-device allocation the simulated
inter-device delay for a pair with 2 + 2 allocated qubits is
`0.08`, not the claimed `0.02 × 4 + 0.02 = 0.10`: `device_comm` is called
with `feedback` defaulting to `False`, so the fixed classical-feedback
delay is never added on this path. -/
theorem claim_C3_counterexample :
    bulk_pair_comm_delay 2 2 ≠ claim_pair_comm_delay 4 := by
  unfold bulk_pair_comm_delay device_comm_delay claim_pair_comm_delay
  norm_num

/-- C3 (amended): in bulk multi-device allocation, for each adjacent pair
of allocated devices in allocation order, the simulated inter-device
communication delay equals `0.02` times the pair's combined allocated
qubit count; the fixed `0.02` classical-feedback delay is only added when
`device_comm` is invoked with `feedback=True`, which the bulk allocation
path never does. -/
theorem claim_C3_pair_delay (qubits1 qubits2 : ℕ) :
    bulk_pair_comm_delay qubits1 qubits2
      = ((qubits1 : ℚ) + (qubits2 : ℚ)) * (2/100)
    ∧ ∀ q : ℕ, device_comm_delay q true = (q : ℚ) * (2/100) + 2/100 := by
  constructor
  · unfold bulk_pair_comm_delay device_comm_delay
    push_cast
    ring
  · intro q
    unfold device_comm_delay
    norm_num

/-! ### Counting semaphores (SimPy containers as used by devices.py / qdevices.py) -/

/-- Modelled from the spec: the counting semaphore (`simpy.Container`)
whose implementation lives in the external SimPy library, not under
src/.  Per the spec's data model, `acquire(n)` blocks until `level >= n`
and then atomically decrements, and `release(n)` atomically increments,
never exceeding capacity.  The initial level equals the capacity, as the
containers are created by `CPU.assign_env` (devices.py lines 24-29,
`init=self.cpu_capacity` / `init=self.mem_bw_capacity`) and
`QuantumDevice.assign_env` (qdevices.py line 134, `init=len(self.pos)`).
`SemReachable capacity level` holds iff `level` is reachable from the
initial state by acquire/release steps. -/
inductive SemReachable (capacity : ℤ) : ℤ → Prop
  | init : SemReachable capacity capacity
  | acquire (n : ℕ) (level : ℤ) (hr : SemReachable capacity level)
      (h : (n : ℤ) ≤ level) : SemReachable capacity (level - n)
  | release (n : ℕ) (level : ℤ) (hr : SemReachable capacity level)
      (h : level + n ≤ capacity) : SemReachable capacity (level + n)

/-! ### ComputeDevice two-semaphore acquisition (devices.py) -/

/-- Joint state of a `ComputeDevice`'s two containers: `container`
(CPU units) and `mem_bw` (memory bandwidth), levels as created by
`CPU.assign_env` (devices.py lines 24-29). -/
structure CpuSemState where
  cpuLevel : ℕ
  memLevel : ℕ
deriving DecidableEq, Repr

/-- Outcome of the acquisition prefix of `CPU.process_job`. -/
inductive CpuAcquireResult
  | acquired (s : CpuSemState)
  /-- the first `get` suspends (SimPy blocking); nothing is held yet -/
  | blockedOnCpu (s : CpuSemState)
  /-- the second `get` suspends while `heldCpu` CPU units stay held -/
  | blockedOnMem (s : CpuSemState) (heldCpu : ℕ)
  /-- a structural exception propagates out of the acquisition -/
  | faulted (s : CpuSemState)
deriving DecidableEq, Repr

/-- Embeds the acquisition prefix of `CPU.process_job` (devices.py lines
46-52): `yield self.container.get(cpu_units)` followed by
`try: yield self.mem_bw.get(mem_bw)` with
`except: yield self.container.put(cpu_units); raise`.  A `get` whose
amount exceeds the current level suspends the calling process (SimPy
blocking, no exception); `memFault` models a structural exception raised
by the `mem_bw.get` call, which triggers the compensating release of the
already-held CPU units before the exception is re-raised. -/
def CPU_process_job_acquire (s : CpuSemState) (cpu_units mem_bw : ℕ)
    (memFault : Bool) : CpuAcquireResult :=
  if cpu_units ≤ s.cpuLevel then
    let s1 : CpuSemState := ⟨s.cpuLevel - cpu_units, s.memLevel⟩
    if memFault then
      CpuAcquireResult.faulted ⟨s1.cpuLevel + cpu_units, s1.memLevel⟩
    else if mem_bw ≤ s1.memLevel then
      CpuAcquireResult.acquired ⟨s1.cpuLevel, s1.memLevel - mem_bw⟩
    else
      CpuAcquireResult.blockedOnMem s1 cpu_units
  else
    CpuAcquireResult.blockedOnCpu s

/-! ### Broker-side CPU requirement vs. device-side draw -/

/-- The CPU-relevant attributes a job object may carry.  The repository's
job classes (`Job`, `QJob`, `HybridJob`) define neither `cpu_units` nor
`mem_bw`, so for them both fields are `none` and the `getattr` defaults
apply. -/
structure JobCpuAttrs where
  cpu_units : Option ℕ
  mem_bw : Option ℕ
deriving DecidableEq, Repr

/-- Embeds `ParallelBroker._cpu_needs` (broker.py lines 110-113):
`(int(getattr(job, "cpu_units", 8)), int(getattr(job, "mem_bw", 20)))`. -/
def cpu_needs (job : JobCpuAttrs) : ℕ × ℕ :=
  (job.cpu_units.getD 8, job.mem_bw.getD 20)

/-- Embeds the randomized draw `cpu_units = random.randint(4, 10)` in
`CPU.process_job` (devices.py line 37): the inclusive range of possible
draws, taken independently of the job. -/
def cpu_units_draw_range : List ℕ := [4, 5, 6, 7, 8, 9, 10]

/-! ### Claim C9 -/

/-- C9: for every semaphore and at every reachable simulation state,
`0 ≤ level ≤ capacity`: acquires only proceed when the level suffices
and releases never raise the level above capacity.  (Spec-modelled:
the `simpy.Container` implementation is external to src/.) -/
theorem claim_C9_semaphore_bounds (capacity level : ℤ) (hcap : 0 ≤ capacity)
    (h : SemReachable capacity level) : 0 ≤ level ∧ level ≤ capacity := by
  induction h with
  | init => exact ⟨hcap, le_refl _⟩
  | acquire n level hr hle ih => omega
  | release n level hr hle ih => omega

/-- C9 witness: with capacity 100 (the default `cpu_capacity` of a
`ComputeDevice`), the level 92 reached by acquiring 8 units satisfies
the bounds. -/
theorem claim_C9_witness :
    (0 : ℤ) ≤ 100 ∧ ((0 : ℤ) ≤ 92 ∧ (92 : ℤ) ≤ 100) := by
  refine ⟨by norm_num, claim_C9_semaphore_bounds 100 92 (by norm_num) ?_⟩
  have h0 : SemReachable 100 100 := SemReachable.init
  have h := SemReachable.acquire 8 100 h0 (by norm_num)
  norm_num at h
  exact h

/-! ### Claim C7 -/

/-- C7: in `CPU.process_job`, if the memory-bandwidth acquisition raises
a structural fault after the cpu-unit acquisition succeeded, the
already-held cpu units are released before the fault is propagated (the
propagated state equals the pre-acquisition state); a memory-bandwidth
acquisition that merely blocks is not rolled back (the cpu units remain
held while waiting). -/
theorem claim_C7_rollback (s : CpuSemState) (cpu_units mem_bw : ℕ)
    (h : cpu_units ≤ s.cpuLevel) :
    CPU_process_job_acquire s cpu_units mem_bw true
        = CpuAcquireResult.faulted s
    ∧ (s.memLevel < mem_bw →
        CPU_process_job_acquire s cpu_units mem_bw false
          = CpuAcquireResult.blockedOnMem
              ⟨s.cpuLevel - cpu_units, s.memLevel⟩ cpu_units) := by
  constructor
  · unfold CPU_process_job_acquire
    rw [if_pos h]
    simp only [if_true, Nat.sub_add_cancel h]
  · intro hb
    unfold CPU_process_job_acquire
    rw [if_pos h, if_neg (by simp), if_neg (by simpa using Nat.not_le.mpr hb)]

/-- C7 witness: with a full default device (cpu level 100, mem level 200)
and a job acquiring 8 cpu units then 300 memory-bandwidth units, the
fault path restores the cpu level and the blocking path keeps it held. -/
theorem claim_C7_witness :
    8 ≤ (CpuSemState.mk 100 200).cpuLevel ∧
    (CPU_process_job_acquire ⟨100, 200⟩ 8 300 true
        = CpuAcquireResult.faulted ⟨100, 200⟩
      ∧ ((CpuSemState.mk 100 200).memLevel < 300 →
          CPU_process_job_acquire ⟨100, 200⟩ 8 300 false
            = CpuAcquireResult.blockedOnMem
                ⟨(CpuSemState.mk 100 200).cpuLevel - 8,
                  (CpuSemState.mk 100 200).memLevel⟩ 8)) :=
  ⟨by decide, claim_C7_rollback ⟨100, 200⟩ 8 300 (by decide)⟩

/-! ### Claim C10 -/

/-- C10: the cpu-unit amount the capacity-aware broker verifies at CPU
device selection is the job's `cpu_units` attribute defaulting to 8,
while `CPU.process_job` draws a fresh uniform integer in [4,10]
independent of the job; in particular the draw 10 is possible, it
exceeds the default-checked amount 8, and on a device whose level is
exactly the checked 8 the admitted job's `container.get(10)` blocks
inside the device. -/
theorem claim_C10_broker_device_mismatch :
    (cpu_needs ⟨none, none⟩).1 = 8
    ∧ 10 ∈ cpu_units_draw_range
    ∧ (∀ d ∈ cpu_units_draw_range, 4 ≤ d ∧ d ≤ 10)
    ∧ (cpu_needs ⟨none, none⟩).1 < 10
    ∧ CPU_process_job_acquire ⟨8, 20⟩ 10 20 false
        = CpuAcquireResult.blockedOnCpu ⟨8, 20⟩ := by
  decide

/-! ### Capacity-aware device selection (broker.py) -/

/-- A device as observed by `ParallelBroker._pick_device_by_capacity`:
its `type` string, `maint_lock` flag, current `container.level`, current
`mem_bw.level` (0 for devices without that container, matching the
`getattr(..., "level", 0)` default), and `number_of_qubits` when the
attribute exists (`hasattr` check in `_fits_physical`). -/
structure Device where
  type : String
  maint_lock : Bool
  container_level : ℕ
  mem_bw_level : ℕ
  number_of_qubits : Option ℕ
deriving DecidableEq, Repr

/-- Embeds `ParallelBroker._required_units` for the QPU phase (broker.py
lines 99-101): `max(1, getattr(job, "num_qubits", 1))`. -/
def required_units_qpu (job_num_qubits : Option ℕ) : ℕ :=
  max 1 (job_num_qubits.getD 1)

/-- Embeds `ParallelBroker._fits_physical` (broker.py lines 105-107):
`hasattr(device, "number_of_qubits") and device.number_of_qubits >= req`
with `req = getattr(job, "num_qubits", 1)`. -/
def fits_physical (d : Device) (job_num_qubits : Option ℕ) : Bool :=
  match d.number_of_qubits with
  | some nq => decide (job_num_qubits.getD 1 ≤ nq)
  | none => false

/-- Embeds the CPU candidate filter of `_pick_device_by_capacity`
(broker.py lines 120-128): type is `"CPU"`, not under maintenance,
`container.level >= need_cpu` and `mem_bw.level >= need_bw`. -/
def cpu_candidate (need_cpu need_bw : ℕ) (d : Device) : Bool :=
  d.type == "CPU" && !d.maint_lock
    && decide (need_cpu ≤ d.container_level)
    && decide (need_bw ≤ d.mem_bw_level)

/-- Embeds the QPU candidate filter of `_pick_device_by_capacity`
(broker.py lines 129-137): type is `"QPU"`, not under maintenance,
`container.level >= needed`, and the `_fits_physical` check. -/
def qpu_candidate (needed : ℕ) (job_num_qubits : Option ℕ) (d : Device) : Bool :=
  d.type == "QPU" && !d.maint_lock
    && decide (needed ≤ d.container_level)
    && fits_physical d job_num_qubits

/-- The descending order used by the CPU branch of
`candidates.sort(key=lambda d: (d.container.level, d.mem_bw.level), reverse=True)`
(broker.py line 142): `cpu_desc a b` holds when `a`'s key is
lexicographically at least `b`'s. -/
def cpu_desc (a b : Device) : Prop :=
  b.container_level < a.container_level
    ∨ (b.container_level = a.container_level ∧ b.mem_bw_level ≤ a.mem_bw_level)

/-- The descending order used by the QPU branch of
`candidates.sort(key=lambda d: d.container.level, reverse=True)`
(broker.py line 144). -/
def qpu_desc (a b : Device) : Prop :=
  b.container_level ≤ a.container_level

instance : DecidableRel cpu_desc := fun a b => by
  unfold cpu_desc; infer_instance

instance : DecidableRel qpu_desc := fun a b => by
  unfold qpu_desc; infer_instance

instance : IsTotal Device cpu_desc := ⟨by intro a b; unfold cpu_desc; omega⟩

instance : IsTrans Device cpu_desc :=
  ⟨by intro a b c hab hbc; unfold cpu_desc at *; omega⟩

instance : IsTotal Device qpu_desc := ⟨by intro a b; unfold qpu_desc; omega⟩

instance : IsTrans Device qpu_desc :=
  ⟨by intro a b c hab hbc; unfold qpu_desc at *; omega⟩

/-- Embeds the CPU branch of `ParallelBroker._pick_device_by_capacity`
(broker.py lines 115-146): filter the candidates, sort them by
`(container.level, mem_bw.level)` descending (Python's stable sort with
`reverse=True`, which a stable insertion sort under `cpu_desc`
reproduces exactly), and return the first, or `None` when no candidate
exists. -/
def pick_cpu_device (devices : List Device) (need_cpu need_bw : ℕ) :
    Option Device :=
  (List.insertionSort cpu_desc
    (devices.filter (cpu_candidate need_cpu need_bw))).head?

/-- Embeds the QPU branch of `ParallelBroker._pick_device_by_capacity`
(broker.py lines 115-146): filter, sort by `container.level` descending
(stable), return the first or `None`. -/
def pick_qpu_device (devices : List Device) (needed : ℕ)
    (job_num_qubits : Option ℕ) : Option Device :=
  (List.insertionSort qpu_desc
    (devices.filter (qpu_candidate needed job_num_qubits))).head?

/-- The head of an insertion-sorted list is an element of the original
list. -/
theorem head?_insertionSort_mem {α : Type} (r : α → α → Prop)
    [DecidableRel r] (l : List α) (x : α)
    (h : (List.insertionSort r l).head? = some x) : x ∈ l := by
  have hp := List.perm_insertionSort r l
  refine hp.subset ?_
  cases hl : List.insertionSort r l with
  | nil => rw [hl] at h; cases h
  | cons y t =>
    rw [hl] at h
    injection h with h
    rw [← h]
    exact List.mem_cons_self _ _

/-- The head of an insertion-sorted list is related by `r` to every
element of the original list (for a total transitive `r`). -/
theorem head?_insertionSort_max {α : Type} (r : α → α → Prop)
    [DecidableRel r] [IsTotal α r] [IsTrans α r] (l : List α) (x : α)
    (h : (List.insertionSort r l).head? = some x) :
    ∀ a ∈ l, r x a := by
  intro a ha
  have hs := List.sorted_insertionSort r l
  have ha' : a ∈ List.insertionSort r l :=
    (List.perm_insertionSort r l).symm.subset ha
  cases hl : List.insertionSort r l with
  | nil => rw [hl] at h; cases h
  | cons y t =>
    rw [hl] at h hs ha'
    have hyx : y = x := by injection h
    rcases List.mem_cons.mp ha' with h1 | h2
    · rw [h1, ← hyx]
      rcases IsTotal.total (r := r) y y with h' | h' <;> exact h'
    · have hr := List.rel_of_sorted_cons hs a h2
      rw [hyx] at hr
      exact hr

/-! ### Claim C6 -/

/-- C6 counterexample to the claim as stated: with requirement
`(cpu_units, mem_bw) = (0, 0)`, a CPU device whose container level is 0
qualifies (`0 ≥ 0`) and is selected, so "a device with level 0 is never
selected" fails for the requirement 0. -/
theorem claim_C6_counterexample :
    pick_cpu_device [Device.mk "CPU" false 0 0 none] 0 0
        = some (Device.mk "CPU" false 0 0 none)
    ∧ (Device.mk "CPU" false 0 0 none).container_level = 0 := by
  constructor
  · rfl
  · rfl

/-- C6 (amended): for every device list and requirement, the selection
returns a device of the requested type that is not under maintenance and
whose capacity levels meet the requirement (for QPU additionally the
physical-fit check), choosing among qualifiers one whose free-capacity
key is greatest (CPU key: `(container.level, mem_bw.level)` lexicographic;
QPU key: `container.level`); it returns none exactly when no device
qualifies; and a device with level 0 is never selected whenever the
requirement is positive — as every broker-derived requirement is
(QPU: `max(1, num_qubits) ≥ 1`; CPU: `cpu_units` defaulting to 8 for the
repository's job classes). -/
theorem claim_C6_device_selection (devices : List Device)
    (need_cpu need_bw needed : ℕ) (jq : Option ℕ) (dc dq : Device)
    (hc : pick_cpu_device devices need_cpu need_bw = some dc)
    (hq : pick_qpu_device devices needed jq = some dq) :
    (dc ∈ devices ∧ cpu_candidate need_cpu need_bw dc = true
      ∧ (∀ d' ∈ devices, cpu_candidate need_cpu need_bw d' = true →
          cpu_desc dc d')
      ∧ (1 ≤ need_cpu → 1 ≤ dc.container_level))
    ∧ (dq ∈ devices ∧ qpu_candidate needed jq dq = true
      ∧ (∀ d' ∈ devices, qpu_candidate needed jq d' = true →
          qpu_desc dq d')
      ∧ (1 ≤ needed → 1 ≤ dq.container_level))
    ∧ (∀ nc nb, pick_cpu_device devices nc nb = none ↔
        ∀ d ∈ devices, cpu_candidate nc nb d = false)
    ∧ (∀ n, pick_qpu_device devices n jq = none ↔
        ∀ d ∈ devices, qpu_candidate n jq d = false)
    ∧ (∀ j : Option ℕ, 1 ≤ required_units_qpu j)
    ∧ (∀ mb : Option ℕ, (cpu_needs ⟨none, mb⟩).1 = 8) := by
  have mem_filter_of :
      ∀ (p : Device → Bool) (d : Device), d ∈ devices.filter p →
        d ∈ devices ∧ p d = true := by
    intro p d hd
    exact ⟨List.mem_of_mem_filter hd, List.of_mem_filter hd⟩
  refine ⟨?_, ?_, ?_, ?_, ?_, ?_⟩
  · have hmem := head?_insertionSort_mem _ _ _ hc
    obtain ⟨hdev, hcand⟩ := mem_filter_of _ _ hmem
    refine ⟨hdev, hcand, ?_, ?_⟩
    · intro d' hd' hcand'
      exact head?_insertionSort_max _ _ _ hc d'
        (List.mem_filter.mpr ⟨hd', hcand'⟩)
    · intro hpos
      have : decide (need_cpu ≤ dc.container_level) = true := by
        unfold cpu_candidate at hcand
        simp only [Bool.and_eq_true] at hcand
        exact hcand.1.2
      have := of_decide_eq_true this
      omega
  · have hmem := head?_insertionSort_mem _ _ _ hq
    obtain ⟨hdev, hcand⟩ := mem_filter_of _ _ hmem
    refine ⟨hdev, hcand, ?_, ?_⟩
    · intro d' hd' hcand'
      exact head?_insertionSort_max _ _ _ hq d'
        (List.mem_filter.mpr ⟨hd', hcand'⟩)
    · intro hpos
      have : decide (needed ≤ dq.container_level) = true := by
        unfold qpu_candidate at hcand
        simp only [Bool.and_eq_true] at hcand
        exact hcand.1.2
      have := of_decide_eq_true this
      omega
  · intro nc nb
    unfold pick_cpu_device
    rw [List.head?_eq_none_iff]
    constructor
    · intro hnil d hd
      by_contra hne
      have : d ∈ devices.filter (cpu_candidate nc nb) :=
        List.mem_filter.mpr ⟨hd, Bool.of_not_eq_false hne⟩
      have := (List.perm_insertionSort cpu_desc _).symm.subset this
      rw [hnil] at this
      cases this
    · intro hall
      have : devices.filter (cpu_candidate nc nb) = [] := by
        rw [List.filter_eq_nil_iff]
        intro d hd
        rw [hall d hd]
        exact Bool.false_ne_true
      rw [this]
      rfl
  · intro n
    unfold pick_qpu_device
    rw [List.head?_eq_none_iff]
    constructor
    · intro hnil d hd
      by_contra hne
      have : d ∈ devices.filter (qpu_candidate n jq) :=
        List.mem_filter.mpr ⟨hd, Bool.of_not_eq_false hne⟩
      have := (List.perm_insertionSort qpu_desc _).symm.subset this
      rw [hnil] at this
      cases this
    · intro hall
      have : devices.filter (qpu_candidate n jq) = [] := by
        rw [List.filter_eq_nil_iff]
        intro d hd
        rw [hall d hd]
        exact Bool.false_ne_true
      rw [this]
      rfl
  · intro j
    unfold required_units_qpu
    omega
  · intro mb
    rfl

/-- C6 witness: two CPU devices (levels 4 and 9) and two QPU devices
(levels 3 and 5); with requirements (8, 20) and 5 the picks succeed and
the selected devices satisfy all the stated properties. -/
theorem claim_C6_witness :
    pick_cpu_device
        [Device.mk "CPU" false 40 100 none, Device.mk "CPU" false 90 100 none,
          Device.mk "QPU" false 5 0 (some 5)] 8 20
      = some (Device.mk "CPU" false 90 100 none)
    ∧ pick_qpu_device
        [Device.mk "CPU" false 40 100 none, Device.mk "CPU" false 90 100 none,
          Device.mk "QPU" false 5 0 (some 5)] 5 (some 5)
      = some (Device.mk "QPU" false 5 0 (some 5))
    ∧ ((Device.mk "CPU" false 90 100 none ∈
          [Device.mk "CPU" false 40 100 none, Device.mk "CPU" false 90 100 none,
            Device.mk "QPU" false 5 0 (some 5)]
        ∧ cpu_candidate 8 20 (Device.mk "CPU" false 90 100 none) = true
        ∧ (∀ d' ∈ [Device.mk "CPU" false 40 100 none,
              Device.mk "CPU" false 90 100 none,
              Device.mk "QPU" false 5 0 (some 5)],
            cpu_candidate 8 20 d' = true →
              cpu_desc (Device.mk "CPU" false 90 100 none) d')
        ∧ (1 ≤ 8 → 1 ≤ (Device.mk "CPU" false 90 100 none).container_level))
      ∧ (Device.mk "QPU" false 5 0 (some 5) ∈
          [Device.mk "CPU" false 40 100 none, Device.mk "CPU" false 90 100 none,
            Device.mk "QPU" false 5 0 (some 5)]
        ∧ qpu_candidate 5 (some 5) (Device.mk "QPU" false 5 0 (some 5)) = true
        ∧ (∀ d' ∈ [Device.mk "CPU" false 40 100 none,
              Device.mk "CPU" false 90 100 none,
              Device.mk "QPU" false 5 0 (some 5)],
            qpu_candidate 5 (some 5) d' = true →
              qpu_desc (Device.mk "QPU" false 5 0 (some 5)) d')
        ∧ (1 ≤ 5 → 1 ≤ (Device.mk "QPU" false 5 0 (some 5)).container_level))
      ∧ (∀ nc nb,
          pick_cpu_device
              [Device.mk "CPU" false 40 100 none,
                Device.mk "CPU" false 90 100 none,
                Device.mk "QPU" false 5 0 (some 5)] nc nb = none ↔
            ∀ d ∈ [Device.mk "CPU" false 40 100 none,
                Device.mk "CPU" false 90 100 none,
                Device.mk "QPU" false 5 0 (some 5)],
              cpu_candidate nc nb d = false)
      ∧ (∀ n,
          pick_qpu_device
              [Device.mk "CPU" false 40 100 none,
                Device.mk "CPU" false 90 100 none,
                Device.mk "QPU" false 5 0 (some 5)] n (some 5) = none ↔
            ∀ d ∈ [Device.mk "CPU" false 40 100 none,
                Device.mk "CPU" false 90 100 none,
                Device.mk "QPU" false 5 0 (some 5)],
              qpu_candidate n (some 5) d = false)
      ∧ (∀ j : Option ℕ, 1 ≤ required_units_qpu j)
      ∧ (∀ mb : Option ℕ, (cpu_needs ⟨none, mb⟩).1 = 8)) :=
  ⟨by rfl, by rfl,
    claim_C6_device_selection _ 8 20 5 (some 5) _ _ (by rfl) (by rfl)⟩

/-! ### Job record ledger (job_records_manager.py) and broker metrics (broker.py) -/

/-- A value stored in the ledger: a number (timestamp/metric), a string
(device name), or a list built up by repeated logging of the same key. -/
inductive RVal
  | num (x : ℚ)
  | str (s : String)
  | arr (xs : List RVal)

/-- A per-job record: an insertion-ordered dictionary from event name to
value. -/
abbrev Row := List (String × RVal)

/-- The full ledger: a dictionary from job id to its record. -/
abbrev Records := List (ℕ × Row)

/-- Dictionary lookup in a per-job record. -/
def rowGet (row : Row) (k : String) : Option RVal :=
  (row.find? (fun p => p.1 == k)).map (·.2)

/-- Dictionary update (existing key) in a per-job record. -/
def rowSet (row : Row) (k : String) (v : RVal) : Row :=
  row.map (fun p => if p.1 == k then (k, v) else p)

/-- Ledger lookup by job id. -/
def recsGet (recs : Records) (jid : ℕ) : Option Row :=
  (recs.find? (fun p => p.1 == jid)).map (·.2)

/-- Ledger update: replace the row of `jid` when present, else append it. -/
def recsSet (recs : Records) (jid : ℕ) (row : Row) : Records :=
  if (recs.find? (fun p => p.1 == jid)).isSome then
    recs.map (fun p => if p.1 == jid then (jid, row) else p)
  else
    recs ++ [(jid, row)]

/-- Embeds `JobRecordsManager.log_job_event` (job_records_manager.py lines
11-30): create the job's row on first event; if the event type already
exists, append to the list (converting a scalar into a two-element list
on the first repeat); otherwise store the value. -/
def log_job_event (recs : Records) (jid : ℕ) (event_type : String)
    (v : RVal) : Records :=
  let row := (recsGet recs jid).getD []
  let row' :=
    match rowGet row event_type with
    | none => row ++ [(event_type, v)]
    | some (RVal.arr xs) => rowSet row event_type (RVal.arr (xs ++ [v]))
    | some old => rowSet row event_type (RVal.arr [old, v])
  recsSet recs jid row'

/-- Embeds the `JobRecordsManager` object (job_records_manager.py lines
3-36): its Python attributes are `event_bus` and `job_records` only. -/
structure JobRecordsManager where
  job_records : Records

/-- Embeds `getattr(self.job_records_manager, "records", {})` as used by
`ParallelBroker._record_phase_metrics` (broker.py line 150) and
`ParallelBroker._rec` (broker.py line 182): `JobRecordsManager` defines
attributes `event_bus` and `job_records` but no attribute named
`records`, so this Python attribute lookup always misses and returns the
supplied default, the empty dictionary. -/
def getattr_records (_m : JobRecordsManager) : Records := []

/-- Python `round` on the exact rational embedding of a float value:
round to the nearest integer, ties to even. -/
def round_half_even (x : ℚ) : ℤ :=
  let f := ⌊x⌋
  let frac := x - f
  if frac < 1/2 then f
  else if 1/2 < frac then f + 1
  else if f % 2 = 0 then f else f + 1

/-- Embeds Python `round(x, 4)`: rounding to the nearest multiple of
1/10000, ties to even. -/
def round4 (x : ℚ) : ℚ := (round_half_even (x * 10000) : ℚ) / 10000

/-- Embeds `ParallelBroker._record_phase_metrics` (broker.py lines
148-176): pull the `{phase}_arrive` / `{phase}_start` / `{phase}_finish`
stamps out of `getattr(self.job_records_manager, "records", {})`; if any
stamp is missing, warn and return without recording; otherwise log
`{phase}_wait_{iter}` = round(start − arrive, 4),
`{phase}_svc_{iter}` = round(finish − start, 4) and
`{phase}_turn_{iter}` = round(finish − arrive, 4).  (The catch-all arm
also covers non-numeric stamp values, on which the Python subtraction
would raise.) -/
def record_phase_metrics (m : JobRecordsManager) (jid : ℕ) (phase : String)
    (iter_idx : ℕ) : JobRecordsManager :=
  let recs := getattr_records m
  let row := (recsGet recs jid).getD []
  match rowGet row (phase ++ "_arrive"), rowGet row (phase ++ "_start"),
      rowGet row (phase ++ "_finish") with
  | some (RVal.num t_arr), some (RVal.num t_s), some (RVal.num t_f) =>
      let wait := round4 (t_s - t_arr)
      let svc := round4 (t_f - t_s)
      let turn := round4 (t_f - t_arr)
      ⟨log_job_event
        (log_job_event
          (log_job_event m.job_records jid
            (phase ++ "_wait_" ++ toString iter_idx) (RVal.num wait))
          jid (phase ++ "_svc_" ++ toString iter_idx) (RVal.num svc))
        jid (phase ++ "_turn_" ++ toString iter_idx) (RVal.num turn)⟩
  | _, _, _ => m

/-- Embeds the makespan block at the end of `ParallelBroker.run`
(broker.py lines 238-246): `row = self._rec(job.job_id)` (which reads
through the same missing `records` attribute),
`t0 = row.get("arrival", row.get("qpu_arrive"))`,
`tf = row.get("cpu_finish")`; when both are present, log
`makespan = round(tf - t0, 4)` once. -/
def broker_record_makespan (m : JobRecordsManager) (jid : ℕ) :
    JobRecordsManager :=
  let row := (recsGet (getattr_records m) jid).getD []
  let t0 :=
    match rowGet row "arrival" with
    | some v => some v
    | none => rowGet row "qpu_arrive"
  let tf := rowGet row "cpu_finish"
  match t0, tf with
  | some (RVal.num a), some (RVal.num b) =>
      ⟨log_job_event m.job_records jid "makespan" (RVal.num (round4 (b - a)))⟩
  | _, _ => m

/-- Stated from the spec's words (`Modelled from the spec:` the intended
read path): the same metric derivation reading the stamps from the
manager's actual `job_records` store instead of the missing `records`
attribute. -/
def record_phase_metrics_intended (m : JobRecordsManager) (jid : ℕ)
    (phase : String) (iter_idx : ℕ) : JobRecordsManager :=
  let row := (recsGet m.job_records jid).getD []
  match rowGet row (phase ++ "_arrive"), rowGet row (phase ++ "_start"),
      rowGet row (phase ++ "_finish") with
  | some (RVal.num t_arr), some (RVal.num t_s), some (RVal.num t_f) =>
      let wait := round4 (t_s - t_arr)
      let svc := round4 (t_f - t_s)
      let turn := round4 (t_f - t_arr)
      ⟨log_job_event
        (log_job_event
          (log_job_event m.job_records jid
            (phase ++ "_wait_" ++ toString iter_idx) (RVal.num wait))
          jid (phase ++ "_svc_" ++ toString iter_idx) (RVal.num svc))
        jid (phase ++ "_turn_" ++ toString iter_idx) (RVal.num turn)⟩
  | _, _, _ => m

/-- A ledger state holding complete stamps for job 1's first QPU and CPU
phases, as the devices and `_phase_start`/`_phase_end` write them. -/
def stamped_manager : JobRecordsManager :=
  ⟨[(1, [("arrival", RVal.num 0), ("qpu_arrive", RVal.num 0),
          ("qpu_start", RVal.num 0), ("qpu_finish", RVal.num 1),
          ("cpu_arrive", RVal.num 1), ("cpu_start", RVal.num 1),
          ("cpu_finish", RVal.num 2)])]⟩

/-! ### Claim C1 -/

/-- C1 (code bug): although `stamped_manager` holds complete arrive /
start / finish stamps for job 1, `_record_phase_metrics` and the
makespan block read them through the nonexistent `records` attribute
(whose `getattr` default is the empty dict), so both return the manager
unchanged and the ledger never gains `qpu_wait_0`, `cpu_wait_0` or
`makespan` — while the intended read from `job_records` does record a
`qpu_wait_0` entry. -/
theorem claim_C1_metrics_never_recorded :
    record_phase_metrics stamped_manager 1 "qpu" 0 = stamped_manager
    ∧ record_phase_metrics stamped_manager 1 "cpu" 0 = stamped_manager
    ∧ broker_record_makespan stamped_manager 1 = stamped_manager
    ∧ rowGet ((recsGet stamped_manager.job_records 1).getD []) "qpu_start"
        = some (RVal.num 0)
    ∧ rowGet ((recsGet stamped_manager.job_records 1).getD []) "qpu_wait_0"
        = none
    ∧ rowGet ((recsGet stamped_manager.job_records 1).getD []) "makespan"
        = none
    ∧ (rowGet
        ((recsGet (record_phase_metrics_intended stamped_manager 1 "qpu"
            0).job_records 1).getD []) "qpu_wait_0").isSome = true := by
  refine ⟨rfl, rfl, rfl, rfl, rfl, rfl, ?_⟩
  rfl

/-! ### Topology graph (utility_functions/graph_manipulation.py, qdevices.py) -/

/-- A quantum device's topology state as `graph_manipulation.py` sees it:
the graph's node iteration order, its current edge list, the per-node
color map (indexed parallel to `nodes`), and `device.nodes` — the
original static edge list loaded by `QuantumDevice.load_topology` and
read back by `reconnect_nodes`. -/
structure QDeviceGraph where
  nodes : List ℕ
  edges : List (ℕ × ℕ)
  color_map : List String
  orig_edges : List (ℕ × ℕ)

/-- networkx `graph.neighbors(u)` computed from the current edge list
(possible duplicates are harmless: the BFS visited check below makes the
produced edge sequence identical to networkx's deduplicated adjacency). -/
def neighbors (edges : List (ℕ × ℕ)) (u : ℕ) : List ℕ :=
  edges.filterMap (fun e =>
    if e.1 = u then some e.2 else if e.2 = u then some e.1 else none)

/-- Embeds `color_map[list(graph.nodes).index(node)]` — the color of a node. -/
def colorAt (g : QDeviceGraph) (node : ℕ) : String :=
  (g.color_map[g.nodes.indexOf node]?).getD ""

/-- One BFS dequeue step: scan `u`'s neighbor list left to right,
yielding a tree edge and enqueueing each not-yet-visited target.
Returns (yielded edges, newly discovered nodes in order, visited). -/
def bfs_scan (u : ℕ) : List ℕ → List ℕ → (List (ℕ × ℕ) × List ℕ × List ℕ)
  | [], visited => ([], [], visited)
  | v :: vs, visited =>
      if v ∈ visited then bfs_scan u vs visited
      else
        let r := bfs_scan u vs (visited ++ [v])
        ((u, v) :: r.1, v :: r.2.1, r.2.2)

/-- Fueled BFS queue loop; the fuel bounds the number of dequeues (each
node is enqueued at most once). -/
def bfsAux (edges : List (ℕ × ℕ)) : ℕ → List ℕ → List ℕ → List (ℕ × ℕ)
  | 0, _, _ => []
  | _ + 1, [], _ => []
  | fuel + 1, u :: queue, visited =>
      let r := bfs_scan u (neighbors edges u) visited
      r.1 ++ bfsAux edges fuel (queue ++ r.2.1) r.2.2

/-- Embeds `nx.bfs_edges(graph, start_node)` as called by
`select_vertices_fast` (graph_manipulation.py line 97): breadth-first
tree edges over the whole current graph, in discovery order. -/
def bfs_edges (g : QDeviceGraph) (start : ℕ) : List (ℕ × ℕ) :=
  bfsAux g.edges (g.nodes.length + 2 * g.edges.length + 1) [start] [start]

/-- The `candidate_nodes` of `select_vertices_fast` (graph_manipulation.py
line 88): the graph's nodes whose color is `'skyblue'`. -/
def candidatesOf (g : QDeviceGraph) : List ℕ :=
  g.nodes.filter (fun node => colorAt g node == "skyblue")

/-- The edge loop of `select_vertices_fast` (graph_manipulation.py lines
100-105): walk the BFS edges; before each edge stop if the subgraph
already has `N` nodes; add the edge's target when it is a candidate
(set add: duplicates are not re-added). -/
def grow_subgraph (N : ℕ) (candidates : List ℕ) :
    List (ℕ × ℕ) → List ℕ → List ℕ
  | [], acc => acc
  | e :: es, acc =>
      if N ≤ acc.length then acc
      else if e.2 ∈ candidates ∧ e.2 ∉ acc then
        grow_subgraph N candidates es (acc ++ [e.2])
      else grow_subgraph N candidates es acc

/-- The outer loop of `select_vertices_fast` (graph_manipulation.py lines
95-112): try each candidate start node; return the grown subgraph on the
first start for which it has exactly `N` nodes. -/
def try_starts (g : QDeviceGraph) (N : ℕ) (candidates : List ℕ) :
    List ℕ → Option (List ℕ)
  | [] => none
  | start :: rest =>
      let subgraph := grow_subgraph N candidates (bfs_edges g start) [start]
      if subgraph.length = N then some subgraph
      else try_starts g N candidates rest

/-- Embeds `select_vertices_fast` (graph_manipulation.py lines 68-116):
return `None` when fewer than `N` skyblue nodes exist, else try each
candidate start node in order. -/
def select_vertices_fast (g : QDeviceGraph) (N : ℕ) : Option (List ℕ) :=
  let candidate_nodes := candidatesOf g
  if candidate_nodes.length < N then none
  else try_starts g N candidate_nodes candidate_nodes

/-- Nodes accumulated by the edge loop come from the initial accumulator
or from the candidate list. -/
theorem grow_subgraph_subset (N : ℕ) (candidates : List ℕ) :
    ∀ (es : List (ℕ × ℕ)) (acc : List ℕ) (x : ℕ),
      x ∈ grow_subgraph N candidates es acc → x ∈ acc ∨ x ∈ candidates := by
  intro es
  induction es with
  | nil => intro acc x hx; exact Or.inl hx
  | cons e es ih =>
    intro acc x hx
    unfold grow_subgraph at hx
    by_cases h1 : N ≤ acc.length
    · rw [if_pos h1] at hx; exact Or.inl hx
    · rw [if_neg h1] at hx
      by_cases h2 : e.2 ∈ candidates ∧ e.2 ∉ acc
      · rw [if_pos h2] at hx
        rcases ih _ _ hx with hacc | hc
        · rcases List.mem_append.mp hacc with h | h
          · exact Or.inl h
          · rcases List.mem_singleton.mp h with rfl
            exact Or.inr h2.1
        · exact Or.inr hc
      · rw [if_neg h2] at hx
        exact ih _ _ hx

/-- A successful `try_starts` returns a list of exactly `N` candidate
nodes (when every start node is itself a candidate). -/
theorem try_starts_some (g : QDeviceGraph) (N : ℕ) (candidates : List ℕ) :
    ∀ (starts : List ℕ) (s : List ℕ),
      (∀ st ∈ starts, st ∈ candidates) →
      try_starts g N candidates starts = some s →
      s.length = N ∧ ∀ x ∈ s, x ∈ candidates := by
  intro starts
  induction starts with
  | nil => intro s _ hs; cases hs
  | cons start rest ih =>
    intro s hst hs
    unfold try_starts at hs
    by_cases h1 :
        (grow_subgraph N candidates (bfs_edges g start) [start]).length = N
    · rw [if_pos h1] at hs
      injection hs with hs
      subst hs
      refine ⟨h1, ?_⟩
      intro x hx
      rcases grow_subgraph_subset N candidates _ _ _ hx with h | h
      · rcases List.mem_singleton.mp h with rfl
        exact hst _ (List.mem_cons_self _ _)
      · exact h
    · rw [if_neg h1] at hs
      exact ih s (fun st h => hst st (List.mem_cons_of_mem _ h)) hs

/-! ### Claim C4 -/

/-- C4: for every device graph, coloring and requested size `N`, the
topology allocator's select operation returns either a set of exactly
`N` free-colored nodes or `None` — never a set of any other size; and it
returns `None` whenever fewer than `M` free-colored nodes exist. -/
theorem claim_C4_select_size (g : QDeviceGraph) (N : ℕ) (s : List ℕ)
    (hs : select_vertices_fast g N = some s) :
    (s.length = N ∧ ∀ x ∈ s, x ∈ g.nodes ∧ colorAt g x = "skyblue")
    ∧ ∀ M, (candidatesOf g).length < M → select_vertices_fast g M = none := by
  constructor
  · unfold select_vertices_fast at hs
    by_cases h1 : (candidatesOf g).length < N
    · rw [if_pos h1] at hs; cases hs
    · rw [if_neg h1] at hs
      obtain ⟨hlen, hmem⟩ :=
        try_starts_some g N (candidatesOf g) (candidatesOf g) s
          (fun st h => h) hs
      refine ⟨hlen, ?_⟩
      intro x hx
      have hc := hmem x hx
      unfold candidatesOf at hc
      have h2 := List.mem_filter.mp hc
      exact ⟨h2.1, by simpa using h2.2⟩
  · intro M hM
    unfold select_vertices_fast
    rw [if_pos hM]

/-- A 5-qubit device whose connectivity is a pentagon, all qubits free;
the current edge list equals the original static edge list. -/
def pentagon : QDeviceGraph :=
  ⟨[0, 1, 2, 3, 4], [(0, 1), (1, 2), (2, 3), (3, 4), (4, 0)],
    ["skyblue", "skyblue", "skyblue", "skyblue", "skyblue"],
    [(0, 1), (1, 2), (2, 3), (3, 4), (4, 0)]⟩

/-- C4 witness: requesting 5 qubits on the free pentagon returns a
concrete set of exactly 5 free nodes, and any request exceeding the free
count returns `None`. -/
theorem claim_C4_witness :
    select_vertices_fast pentagon 5 = some [0, 1, 4, 2, 3]
    ∧ ((([0, 1, 4, 2, 3] : List ℕ).length = 5
        ∧ ∀ x ∈ ([0, 1, 4, 2, 3] : List ℕ),
            x ∈ pentagon.nodes ∧ colorAt pentagon x = "skyblue")
      ∧ ∀ M, (candidatesOf pentagon).length < M →
          select_vertices_fast pentagon M = none) :=
  ⟨by rfl, claim_C4_select_size pentagon 5 [0, 1, 4, 2, 3] (by rfl)⟩

/-! ### Reserve / release (graph_manipulation.py) -/

/-- Whether an (undirected) edge occurs in an edge list in either
orientation — networkx edge membership. -/
def undirected_listed (e : ℕ × ℕ) (l : List (ℕ × ℕ)) : Bool :=
  l.any (fun r => (r.1 == e.1 && r.2 == e.2) || (r.1 == e.2 && r.2 == e.1))

/-- Undirected membership of an edge in an edge list, as a proposition. -/
def edgeMem (e : ℕ × ℕ) (l : List (ℕ × ℕ)) : Prop :=
  e ∈ l ∨ (e.2, e.1) ∈ l

/-- Embeds `remove_connectivity` (graph_manipulation.py lines 118-146):
color every selected node `new_color`; collect, for each selected node,
the edges to its non-selected neighbors; remove those (undirected)
edges. -/
def remove_connectivity (g : QDeviceGraph) (sel : List ℕ)
    (new_color : String) : QDeviceGraph :=
  let color' := List.zipWith
    (fun node c => if node ∈ sel then new_color else c) g.nodes g.color_map
  let edges_to_remove := (sel.map (fun node =>
    ((neighbors g.edges node).filter (fun nb => nb ∉ sel)).map
      (fun nb => (node, nb)))).flatten
  let edges' := g.edges.filter
    (fun e => !(undirected_listed e edges_to_remove))
  ⟨g.nodes, edges', color', g.orig_edges⟩

/-- Embeds `reconnect_nodes` (graph_manipulation.py lines 148-184):
color the selected nodes `'skyblue'` again, then re-add every edge of
the device's original static edge list (`device.nodes`) whose two
endpoints are now both skyblue under the updated color map. -/
def reconnect_nodes (g : QDeviceGraph) (sel : List ℕ) : QDeviceGraph :=
  let color' := List.zipWith
    (fun node c => if node ∈ sel then "skyblue" else c) g.nodes g.color_map
  let g1 : QDeviceGraph := ⟨g.nodes, g.edges, color', g.orig_edges⟩
  let edges_to_reconnect := g.orig_edges.filter
    (fun e => colorAt g1 e.1 == "skyblue" && colorAt g1 e.2 == "skyblue")
  ⟨g.nodes, g.edges ++ edges_to_reconnect, color', g.orig_edges⟩

/-- Re-coloring a selection after coloring it with any color restores an
all-skyblue map when the map started all skyblue. -/
theorem zip_colors_skyblue (sel : List ℕ) (new_color : String) :
    ∀ (ns : List ℕ) (cs : List String), (∀ c ∈ cs, c = "skyblue") →
      ∀ c ∈ List.zipWith (fun n c => if n ∈ sel then "skyblue" else c) ns
          (List.zipWith (fun n c => if n ∈ sel then new_color else c) ns cs),
        c = "skyblue" := by
  intro ns
  induction ns with
  | nil => intro cs _ c hc; simp [List.zipWith] at hc
  | cons n ns ih =>
    intro cs hcs c hc
    cases cs with
    | nil => simp [List.zipWith] at hc
    | cons c0 cs =>
      simp only [List.zipWith] at hc
      rcases List.mem_cons.mp hc with rfl | h
      · by_cases hn : n ∈ sel
        · simp [hn]
        · simp only [if_neg hn]
          exact hcs c0 (List.mem_cons_self _ _)
      · exact ih cs (fun x hx => hcs x (List.mem_cons_of_mem _ hx)) c h

/-- On a graph whose color map is all skyblue and at least as long as
its node list, every node reads back as skyblue. -/
theorem colorAt_of_all_skyblue (g : QDeviceGraph)
    (hall : ∀ c ∈ g.color_map, c = "skyblue")
    (hlen : g.nodes.length ≤ g.color_map.length)
    (v : ℕ) (hv : v ∈ g.nodes) : colorAt g v = "skyblue" := by
  unfold colorAt
  have hidx : g.nodes.indexOf v < g.nodes.length :=
    List.indexOf_lt_length.mpr hv
  have hidx2 : g.nodes.indexOf v < g.color_map.length :=
    lt_of_lt_of_le hidx hlen
  rw [List.getElem?_eq_getElem hidx2]
  simp only [Option.getD_some]
  exact hall _ (List.getElem_mem hidx2)

/-! ### Claim C5 -/

/-- C5: reserve followed by release is a round trip when no other
reservation is in flight: starting from a device whose nodes are all
free and whose current edge set equals its original static edge list,
`remove_connectivity` followed by `reconnect_nodes` on the same node set
leaves every node free-colored and restores the original (undirected)
edge set exactly. -/
theorem claim_C5_reserve_release (g : QDeviceGraph) (sel : List ℕ)
    (new_color : String)
    (hlen : g.color_map.length = g.nodes.length)
    (hcol : ∀ c ∈ g.color_map, c = "skyblue")
    (hends : ∀ e ∈ g.orig_edges, e.1 ∈ g.nodes ∧ e.2 ∈ g.nodes)
    (hcur : ∀ e, edgeMem e g.edges ↔ edgeMem e g.orig_edges) :
    (∀ c ∈ (reconnect_nodes
        (remove_connectivity g sel new_color) sel).color_map, c = "skyblue")
    ∧ ∀ e, edgeMem e
        (reconnect_nodes (remove_connectivity g sel new_color) sel).edges
          ↔ edgeMem e g.orig_edges := by
  have hc2 : (reconnect_nodes
      (remove_connectivity g sel new_color) sel).color_map
      = List.zipWith (fun n c => if n ∈ sel then "skyblue" else c) g.nodes
          (List.zipWith (fun n c => if n ∈ sel then new_color else c)
            g.nodes g.color_map) := rfl
  have hcolors : ∀ c ∈ (reconnect_nodes
      (remove_connectivity g sel new_color) sel).color_map,
      c = "skyblue" := by
    rw [hc2]
    exact zip_colors_skyblue sel new_color g.nodes g.color_map hcol
  refine ⟨hcolors, ?_⟩
  have hlen2 : (reconnect_nodes
      (remove_connectivity g sel new_color) sel).nodes.length
      ≤ (reconnect_nodes
          (remove_connectivity g sel new_color) sel).color_map.length := by
    rw [hc2]
    show g.nodes.length ≤ _
    simp [List.length_zipWith, hlen]
  have hsky : ∀ v ∈ g.nodes,
      colorAt (reconnect_nodes (remove_connectivity g sel new_color) sel) v
        = "skyblue" := by
    intro v hv
    exact colorAt_of_all_skyblue _ hcolors hlen2 v hv
  have hfilter : g.orig_edges.filter (fun e =>
      colorAt (reconnect_nodes (remove_connectivity g sel new_color) sel) e.1
          == "skyblue"
        && colorAt (reconnect_nodes
            (remove_connectivity g sel new_color) sel) e.2 == "skyblue")
      = g.orig_edges := by
    apply List.filter_eq_self.mpr
    intro e he
    have h1 := hsky e.1 (hends e he).1
    have h2 := hsky e.2 (hends e he).2
    simp [h1, h2]
  have hE : (reconnect_nodes
      (remove_connectivity g sel new_color) sel).edges
      = (remove_connectivity g sel new_color).edges
        ++ g.orig_edges.filter (fun e =>
          colorAt (reconnect_nodes
              (remove_connectivity g sel new_color) sel) e.1 == "skyblue"
            && colorAt (reconnect_nodes
                (remove_connectivity g sel new_color) sel) e.2
              == "skyblue") := rfl
  intro e
  rw [hE, hfilter]
  constructor
  · intro he
    rcases he with h | h
    · rcases List.mem_append.mp h with h1 | h2
      · have hx : e ∈ g.edges := List.mem_of_mem_filter h1
        exact (hcur e).mp (Or.inl hx)
      · exact Or.inl h2
    · rcases List.mem_append.mp h with h1 | h2
      · have hx : (e.2, e.1) ∈ g.edges := List.mem_of_mem_filter h1
        exact (hcur e).mp (Or.inr hx)
      · exact Or.inr h2
  · intro he
    rcases he with h | h
    · exact Or.inl (List.mem_append_right _ h)
    · exact Or.inr (List.mem_append_right _ h)

/-- C5 witness: on the free pentagon, reserving all five qubits and then
releasing them leaves every node skyblue and the pentagon's original
edge set fully restored. -/
theorem claim_C5_witness :
    (∀ c ∈ pentagon.color_map, c = "skyblue")
    ∧ ((∀ c ∈ (reconnect_nodes
          (remove_connectivity pentagon [0, 1, 2, 3, 4] "red")
          [0, 1, 2, 3, 4]).color_map, c = "skyblue")
      ∧ ∀ e, edgeMem e (reconnect_nodes
          (remove_connectivity pentagon [0, 1, 2, 3, 4] "red")
          [0, 1, 2, 3, 4]).edges ↔ edgeMem e pentagon.orig_edges) :=
  ⟨by decide,
    claim_C5_reserve_release pentagon [0, 1, 2, 3, 4] "red" rfl (by decide)
      (by decide) (fun e => Iff.rfl)⟩

/-! ### Smart bulk allocation (qcloud.py) -/

/-- An entry of the `eligible_devices` list built by
`QCloud.smart_allocate_large_job` (qcloud.py lines 189-207), reduced to
the fields its selection step reads: the device's `error_score` and its
free `container.level`. -/
structure EligibleDevice where
  error_score : ℚ
  level : ℕ
deriving DecidableEq, Repr

/-- The ascending order used by the sort
`eligible_devices.sort(key=lambda x: x[2])` (qcloud.py line 210). -/
def err_asc (a b : EligibleDevice) : Prop :=
  a.error_score ≤ b.error_score

instance : DecidableRel err_asc := fun a b => by
  unfold err_asc; infer_instance

instance : IsTotal EligibleDevice err_asc :=
  ⟨fun a b => le_total a.error_score b.error_score⟩

instance : IsTrans EligibleDevice err_asc :=
  ⟨fun _ _ _ hab hbc => le_trans hab hbc⟩

/-- Combined free capacity of a device list. -/
def sum_levels (l : List EligibleDevice) : ℕ :=
  (l.map (·.level)).sum

/-- Embeds `max(d.container.level for d, _, _, _ in eligible_devices)`
(qcloud.py line 212); `foldr max 0` agrees with Python `max` on nonempty
lists. -/
def max_level (elig : List EligibleDevice) : ℕ :=
  (elig.map (·.level)).foldr max 0

/-- Embeds `num_devices_to_use = min(len(eligible_devices), math.ceil(job.num_qubits / max(...)))`
(qcloud.py line 212); for a positive maximum level the ceiling of the
exact division equals `(num_qubits + max - 1) / max` in ℕ. -/
def num_devices_to_use (num_qubits : ℕ) (elig : List EligibleDevice) : ℕ :=
  min elig.length ((num_qubits + max_level elig - 1) / max_level elig)

/-- Embeds the selection step of `QCloud.smart_allocate_large_job`
(qcloud.py lines 209-213): sort the eligible devices ascending by error
score (Python's stable sort, reproduced exactly by a stable insertion
sort under `err_asc`) and keep the first `num_devices_to_use`. -/
def smart_selected (num_qubits : ℕ) (elig : List EligibleDevice) :
    List EligibleDevice :=
  (List.insertionSort err_asc elig).take (num_devices_to_use num_qubits elig)

/-- Stated from the claim's words for comparison: the length of the
minimal prefix of the sorted devices whose combined free capacity covers
the requirement (the whole list when none does). -/
def min_cover_count (num_qubits : ℕ) (sorted : List EligibleDevice) : ℕ :=
  ((List.range (sorted.length + 1)).find?
    (fun k => num_qubits ≤ sum_levels (sorted.take k))).getD sorted.length

/-- Stated from the claim's words for comparison: the minimal-count
prefix of the devices sorted ascending by error score whose combined
free capacity covers the requirement. -/
def minimal_cover_selection (num_qubits : ℕ) (elig : List EligibleDevice) :
    List EligibleDevice :=
  (List.insertionSort err_asc elig).take
    (min_cover_count num_qubits (List.insertionSort err_asc elig))

/-- Every eligible device's free level is at most `max_level`. -/
theorem level_le_max_level (elig : List EligibleDevice) :
    ∀ d ∈ elig, d.level ≤ max_level elig := by
  induction elig with
  | nil => intro d hd; cases hd
  | cons x xs ih =>
    intro d hd
    have hx : max_level (x :: xs) = max x.level (max_level xs) := rfl
    rcases List.mem_cons.mp hd with rfl | h
    · rw [hx]; exact le_max_left _ _
    · rw [hx]; exact le_trans (ih d h) (le_max_right _ _)

/-- A `k`-prefix of a list of levels bounded by `m` sums to at most
`k * m`. -/
theorem sum_levels_take_le (m : ℕ) :
    ∀ (l : List EligibleDevice) (k : ℕ), (∀ d ∈ l, d.level ≤ m) →
      sum_levels (l.take k) ≤ k * m := by
  intro l
  induction l with
  | nil => intro k _; simp [sum_levels]
  | cons x xs ih =>
    intro k hb
    cases k with
    | zero => simp [sum_levels]
    | succ k =>
      have h1 : sum_levels ((x :: xs).take (k + 1))
          = x.level + sum_levels (xs.take k) := by
        simp [sum_levels]
      rw [h1]
      have h2 := ih k (fun d hd => hb d (List.mem_cons_of_mem _ hd))
      have h3 := hb x (List.mem_cons_self _ _)
      calc x.level + sum_levels (xs.take k) ≤ m + k * m :=
            Nat.add_le_add h3 h2
        _ = (k + 1) * m := by ring

/-! ### Claim C2 -/

/-- C2 counterexample: three eligible devices with error scores
0.01, 0.05, 0.02 and free levels 7, 20, 7, requirement 21 (exceeding
any single device's free capacity): the smart selection keeps
`min(3, ceil(21/20)) = 2` devices, whose combined capacity 14 does not
cover the requirement, while the minimal covering prefix has all three
devices — so the chosen subset is not the minimal-count covering
prefix. -/
theorem claim_C2_counterexample :
    smart_selected 21
        [(⟨1/100, 7⟩ : EligibleDevice), ⟨1/20, 20⟩, ⟨1/50, 7⟩]
      ≠ minimal_cover_selection 21
        [(⟨1/100, 7⟩ : EligibleDevice), ⟨1/20, 20⟩, ⟨1/50, 7⟩]
    ∧ sum_levels (smart_selected 21
        [(⟨1/100, 7⟩ : EligibleDevice), ⟨1/20, 20⟩, ⟨1/50, 7⟩]) < 21
    ∧ 21 ≤ sum_levels (minimal_cover_selection 21
        [(⟨1/100, 7⟩ : EligibleDevice), ⟨1/20, 20⟩, ⟨1/50, 7⟩])
    ∧ ∀ d ∈ [(⟨1/100, 7⟩ : EligibleDevice), ⟨1/20, 20⟩, ⟨1/50, 7⟩],
        d.level < 21 := by
  have hsort : List.insertionSort err_asc
      [(⟨1/100, 7⟩ : EligibleDevice), ⟨1/20, 20⟩, ⟨1/50, 7⟩]
      = [(⟨1/100, 7⟩ : EligibleDevice), ⟨1/50, 7⟩, ⟨1/20, 20⟩] := by
    norm_num [List.insertionSort, List.orderedInsert, err_asc]
  have hsmart : smart_selected 21
      [(⟨1/100, 7⟩ : EligibleDevice), ⟨1/20, 20⟩, ⟨1/50, 7⟩]
      = [(⟨1/100, 7⟩ : EligibleDevice), ⟨1/50, 7⟩] := by
    unfold smart_selected
    rw [hsort]
    rfl
  have hmin : minimal_cover_selection 21
      [(⟨1/100, 7⟩ : EligibleDevice), ⟨1/20, 20⟩, ⟨1/50, 7⟩]
      = [(⟨1/100, 7⟩ : EligibleDevice), ⟨1/50, 7⟩, ⟨1/20, 20⟩] := by
    unfold minimal_cover_selection min_cover_count
    rw [hsort]
    rfl
  refine ⟨?_, ?_, ?_, ?_⟩
  · rw [hsmart, hmin]
    intro h
    have := congrArg List.length h
    simp at this
  · rw [hsmart]; decide
  · rw [hmin]; decide
  · decide

/-- C2 (amended): the chosen subset is the prefix of length
`min(#eligible, ceil(requirement / max free level among eligible))` of
the eligible devices sorted ascending by error score; its combined free
capacity may fall short of the requirement, but its device count never
exceeds that of any covering prefix (in particular it never exceeds the
minimal covering prefix count). -/
theorem claim_C2_smart_selection (num_qubits : ℕ) (elig : List EligibleDevice)
    (hmax : 0 < max_level elig) :
    smart_selected num_qubits elig
      = (List.insertionSort err_asc elig).take
          (min elig.length
            ((num_qubits + max_level elig - 1) / max_level elig))
    ∧ ∀ k, num_qubits ≤ sum_levels ((List.insertionSort err_asc elig).take k) →
        (smart_selected num_qubits elig).length ≤ k := by
  constructor
  · rfl
  · intro k hk
    have hsortlen : (List.insertionSort err_asc elig).length = elig.length :=
      (List.perm_insertionSort err_asc elig).length_eq
    have hchlen : (smart_selected num_qubits elig).length
        = min (num_devices_to_use num_qubits elig) elig.length := by
      unfold smart_selected
      rw [List.length_take, hsortlen]
    by_cases hkl : elig.length ≤ k
    · rw [hchlen]
      exact le_trans (min_le_right _ _) hkl
    · have hmle : ∀ d ∈ List.insertionSort err_asc elig,
          d.level ≤ max_level elig := fun d hd =>
        level_le_max_level elig d
          ((List.perm_insertionSort err_asc elig).subset hd)
      have hsum := sum_levels_take_le (max_level elig)
        (List.insertionSort err_asc elig) k hmle
      have hR : num_qubits ≤ k * max_level elig := le_trans hk hsum
      have hdiv : (num_qubits + max_level elig - 1) / max_level elig ≤ k := by
        have h1 : (num_qubits + max_level elig - 1) / max_level elig
            < k + 1 := by
          rw [Nat.div_lt_iff_lt_mul hmax]
          have h2 : (k + 1) * max_level elig
              = k * max_level elig + max_level elig := by ring
          omega
        omega
      rw [hchlen]
      calc min (num_devices_to_use num_qubits elig) elig.length
          ≤ num_devices_to_use num_qubits elig := min_le_left _ _
        _ ≤ (num_qubits + max_level elig - 1) / max_level elig :=
            min_le_right _ _
        _ ≤ k := hdiv

/-- C2 witness: the counterexample's eligible list has a positive
maximum free level, so the amended characterization applies to it. -/
theorem claim_C2_witness :
    0 < max_level [(⟨1/100, 7⟩ : EligibleDevice), ⟨1/20, 20⟩, ⟨1/50, 7⟩]
    ∧ (smart_selected 21
          [(⟨1/100, 7⟩ : EligibleDevice), ⟨1/20, 20⟩, ⟨1/50, 7⟩]
        = (List.insertionSort err_asc
            [(⟨1/100, 7⟩ : EligibleDevice), ⟨1/20, 20⟩, ⟨1/50, 7⟩]).take
            (min ([(⟨1/100, 7⟩ : EligibleDevice), ⟨1/20, 20⟩,
                ⟨1/50, 7⟩] : List EligibleDevice).length
              ((21 + max_level [(⟨1/100, 7⟩ : EligibleDevice), ⟨1/20, 20⟩,
                  ⟨1/50, 7⟩] - 1)
                / max_level [(⟨1/100, 7⟩ : EligibleDevice), ⟨1/20, 20⟩,
                  ⟨1/50, 7⟩]))
      ∧ ∀ k, 21 ≤ sum_levels ((List.insertionSort err_asc
            [(⟨1/100, 7⟩ : EligibleDevice), ⟨1/20, 20⟩, ⟨1/50, 7⟩]).take k) →
          (smart_selected 21
            [(⟨1/100, 7⟩ : EligibleDevice), ⟨1/20, 20⟩,
              ⟨1/50, 7⟩]).length ≤ k) :=
  ⟨by decide,
    claim_C2_smart_selection 21
      [(⟨1/100, 7⟩ : EligibleDevice), ⟨1/20, 20⟩, ⟨1/50, 7⟩] (by decide)⟩

end HybridCloudSim
